import Mathlib

/-!
Verification development for the data-fusion description-generator core:
shallow embedding of the sampling / type-inference engine, the generation
retry controller, the response-extraction strategies, and the profile
assembler, with theorems checking the specification's claims.

Conventions of the embedding:
* Python / JSON values are the inductive type `J`; Python dicts are
  association lists in insertion order.
* Python floats are modelled as rationals (no float arithmetic is ever
  performed by the code under verification, only type classification).
* Fallible operations (json.loads, the generation call) return `Option`
  or `Except`.
-/

set_option maxHeartbeats 1000000

namespace DataFusion

/-- Python / JSON values as they flow through the generator
(`json.loads` results, record fields, sampled scalars).
Objects are association lists in insertion order, as Python dicts are. -/
inductive J where
  | null
  | bool (b : Bool)
  | int (n : Int)
  | float (q : ℚ)
  | str (s : String)
  | arr (elems : List J)
  | obj (fields : List (String × J))

/-! ### Python string primitives used by the source -/

/-- The ASCII whitespace characters recognised by Python's `str.strip`
(unicode whitespace beyond ASCII is not exercised by this code). -/
def pyWhitespace (c : Char) : Bool :=
  c = ' ' || c = '\t' || c = '\n' || c = '\r' || c = '\x0b' || c = '\x0c'

/-- Python `str.strip()`: drop leading and trailing whitespace. -/
def pyStrip (s : String) : String :=
  String.mk
    (((s.toList.dropWhile fun c => pyWhitespace c).reverse.dropWhile
      fun c => pyWhitespace c).reverse)

/-- Python `str.lower()` (ASCII case folding; the markers searched for are
all ASCII). -/
def pyLower (s : String) : String :=
  String.mk (s.toList.map Char.toLower)

/-- Substring occurrence test on character lists. -/
def listContainsSub (needle : List Char) : List Char → Bool
  | [] => needle.isEmpty
  | c :: t => needle.isPrefixOf (c :: t) || listContainsSub needle t

/-- Python `needle in hay` for strings. -/
def pyContains (hay needle : String) : Bool :=
  listContainsSub needle.toList hay.toList

/-- Index of the first occurrence of `needle` (Python `str.find`,
`none` for -1). -/
def findSubIdx (needle : List Char) : List Char → Option Nat
  | [] => if needle.isEmpty then some 0 else none
  | c :: t =>
    if needle.isPrefixOf (c :: t) then some 0
    else (findSubIdx needle t).map (· + 1)

/-- Index of the first occurrence of a single character (Python `find`). -/
def charIdx (c : Char) : List Char → Option Nat
  | [] => none
  | d :: t => if d = c then some 0 else (charIdx c t).map (· + 1)

/-- Index of the last occurrence of a single character (Python `rfind`). -/
def charLastIdx (c : Char) (cs : List Char) : Option Nat :=
  (charIdx c cs.reverse).map fun k => cs.length - 1 - k

/-- Numeric value of a digit run. -/
def natOfDigits (ds : List Char) : Nat :=
  ds.foldl (fun a c => 10 * a + (c.toNat - '0'.toNat)) 0

/-! ### `json.loads` -/

/-- JSON whitespace skipped between tokens (RFC 8259 / CPython `json`). -/
def jsonWs (c : Char) : Bool :=
  c = ' ' || c = '\t' || c = '\n' || c = '\r'

/-- Skip JSON inter-token whitespace. -/
def skipWs (cs : List Char) : List Char :=
  cs.dropWhile fun c => jsonWs c

/-- Hexadecimal digit value, for `\uXXXX` escapes. -/
def hexVal (c : Char) : Option Nat :=
  if '0' ≤ c ∧ c ≤ '9' then some (c.toNat - '0'.toNat)
  else if 'a' ≤ c ∧ c ≤ 'f' then some (c.toNat - 'a'.toNat + 10)
  else if 'A' ≤ c ∧ c ≤ 'F' then some (c.toNat - 'A'.toNat + 10)
  else none

/-- Body of a JSON string after the opening quote: returns the decoded
string and the remaining input.  Escapes are decoded as CPython does;
unescaped control characters are rejected (strict mode).  Surrogate-pair
recombination of consecutive `\u` escapes is not modelled (no claim
touches it). -/
def parseStringBody : List Char → List Char → Option (String × List Char)
  | _, [] => none
  | acc, '"' :: rest => some (String.mk acc.reverse, rest)
  | acc, '\\' :: 'u' :: a :: b :: c :: d :: rest =>
    match hexVal a, hexVal b, hexVal c, hexVal d with
    | some ha, some hb, some hc, some hd =>
      parseStringBody (Char.ofNat (((ha * 16 + hb) * 16 + hc) * 16 + hd) :: acc) rest
    | _, _, _, _ => none
  | acc, '\\' :: e :: rest =>
    match e with
    | '"' => parseStringBody ('"' :: acc) rest
    | '\\' => parseStringBody ('\\' :: acc) rest
    | '/' => parseStringBody ('/' :: acc) rest
    | 'b' => parseStringBody ('\x08' :: acc) rest
    | 'f' => parseStringBody ('\x0c' :: acc) rest
    | 'n' => parseStringBody ('\n' :: acc) rest
    | 'r' => parseStringBody ('\r' :: acc) rest
    | 't' => parseStringBody ('\t' :: acc) rest
    | _ => none
  | acc, c :: rest =>
    if c.toNat < 32 then none else parseStringBody (c :: acc) rest

/-- A JSON number starting at `cs`: sign, integer part without leading
zeros, optional fraction, optional exponent.  A plain integer literal
becomes a Python `int`, anything with a fraction or exponent a `float`
(modelled exactly as a rational). -/
def parseNumber (cs : List Char) : Option (J × List Char) :=
  let signed : Bool × List Char :=
    match cs with
    | '-' :: t => (true, t)
    | _ => (false, cs)
  let neg := signed.1
  let r1 := signed.2
  let ds := r1.takeWhile Char.isDigit
  if ds.isEmpty then none
  else if 1 < ds.length ∧ ds.head? = some '0' then none
  else
    let r2 := r1.drop ds.length
    let fracPart : Option (List Char × List Char) :=
      match r2 with
      | '.' :: t =>
        let fs := t.takeWhile Char.isDigit
        if fs.isEmpty then none else some (fs, t.drop fs.length)
      | _ => some ([], r2)
    match fracPart with
    | none => none
    | some (fs, r3) =>
      let expPart : Option (Bool × Int × List Char) :=
        match r3 with
        | 'e' :: t | 'E' :: t =>
          let se : Bool × List Char :=
            match t with
            | '-' :: u => (true, u)
            | '+' :: u => (false, u)
            | _ => (false, t)
          let es := se.2.takeWhile Char.isDigit
          if es.isEmpty then none
          else
            let ev : Int := (natOfDigits es : Int)
            some (true, if se.1 then -ev else ev, se.2.drop es.length)
        | _ => some (false, 0, r3)
      match expPart with
      | none => none
      | some (hasExp, ex, r4) =>
        if fs.isEmpty ∧ hasExp = false then
          let v : Int := (natOfDigits ds : Int)
          some (J.int (if neg then -v else v), r4)
        else
          let mant : ℚ := ((natOfDigits ds * 10 ^ fs.length + natOfDigits fs : Nat) : ℚ) / (10 ^ fs.length : ℚ)
          let q : ℚ := mant * (10 : ℚ) ^ ex
          some (J.float (if neg then -q else q), r4)

/-- Insert a key into a JSON object under construction: a repeated key
overwrites in place (CPython dict semantics), a new key is appended. -/
def objInsert (kvs : List (String × J)) (k : String) (v : J) : List (String × J) :=
  if kvs.any (fun p => p.1 = k) then
    kvs.map fun p => if p.1 = k then (k, v) else p
  else kvs ++ [(k, v)]

mutual

/-- One JSON value (fuel-indexed recursive descent). -/
def parseVal : Nat → List Char → Option (J × List Char)
  | 0, _ => none
  | fuel + 1, cs =>
    match skipWs cs with
    | [] => none
    | '{' :: rest =>
      (match skipWs rest with
       | '}' :: r2 => some (J.obj [], r2)
       | r => (parseFields fuel [] r).map fun p => (J.obj p.1, p.2))
    | '[' :: rest =>
      (match skipWs rest with
       | ']' :: r2 => some (J.arr [], r2)
       | r => (parseElems fuel [] r).map fun p => (J.arr p.1, p.2))
    | '"' :: rest => (parseStringBody [] rest).map fun p => (J.str p.1, p.2)
    | c :: rest =>
      if ['t', 'r', 'u', 'e'].isPrefixOf (c :: rest) then
        some (J.bool true, (c :: rest).drop 4)
      else if ['f', 'a', 'l', 's', 'e'].isPrefixOf (c :: rest) then
        some (J.bool false, (c :: rest).drop 5)
      else if ['n', 'u', 'l', 'l'].isPrefixOf (c :: rest) then
        some (J.null, (c :: rest).drop 4)
      else parseNumber (c :: rest)

/-- Members of a JSON object after the opening brace (first key expected
at the head of the input, whitespace already skipped). -/
def parseFields : Nat → List (String × J) → List Char → Option (List (String × J) × List Char)
  | 0, _, _ => none
  | fuel + 1, acc, cs =>
    match cs with
    | '"' :: rest =>
      (match parseStringBody [] rest with
       | none => none
       | some (k, r1) =>
         match skipWs r1 with
         | ':' :: r2 =>
           (match parseVal fuel r2 with
            | none => none
            | some (v, r3) =>
              match skipWs r3 with
              | ',' :: r4 => parseFields fuel (objInsert acc k v) (skipWs r4)
              | '}' :: r4 => some (objInsert acc k v, r4)
              | _ => none)
         | _ => none)
    | _ => none

/-- Elements of a JSON array after the opening bracket. -/
def parseElems : Nat → List J → List Char → Option (List J × List Char)
  | 0, _, _ => none
  | fuel + 1, acc, cs =>
    match parseVal fuel cs with
    | none => none
    | some (v, r1) =>
      match skipWs r1 with
      | ',' :: r2 => parseElems fuel (acc ++ [v]) r2
      | ']' :: r2 => some (acc ++ [v], r2)
      | _ => none

end

/-- Python `json.loads`: parse one JSON document, requiring the whole
input to be consumed (modulo trailing whitespace). -/
def json_loads (s : String) : Option J :=
  match parseVal (2 * s.length + 2) s.toList with
  | some (vrest : J × List Char) =>
    if (skipWs vrest.2).isEmpty then some vrest.1 else none
  | none => none

/-! ### Python dicts (association lists in insertion order) -/

/-- A Python dict with string keys, as the parsed LLM response and the
parsed JSONL records are. -/
abbrev PyDict := List (String × J)

/-- Python `d.get(k)` / `d[k]`: first entry with the key (a Python dict
holds each key once). -/
def dictGet : PyDict → String → Option J
  | [], _ => none
  | q :: d, k => if q.1 = k then some q.2 else dictGet d k

/-- Python `d[k] = v`: overwrite in place if the key exists, else append. -/
def dictSet : PyDict → String → J → PyDict
  | [], k, v => [(k, v)]
  | q :: d, k, v => if q.1 = k then (k, v) :: d else q :: dictSet d k v

/-- Lookup in a string-valued dict (`data_types`). -/
def lookupStr : List (String × String) → String → Option String
  | [], _ => none
  | q :: m, k => if q.1 = k then some q.2 else lookupStr m k

/-! ### Pandas storage types (`_get_data_types_from_dataframe`) -/

/-- A column's pandas storage dtype, classified exactly as the source's
`pd.api.types` if/elif chain does, in order: integer, floating, boolean,
datetime64, object; everything else keeps its pandas dtype name
(e.g. "category", "timedelta64[ns]") for the final `str(dtype)` branch. -/
inductive PandasDtype where
  | integer
  | floating
  | boolean
  | datetime64
  | object
  | other (name : String)
deriving DecidableEq, Repr

/-- A pandas DataFrame as the sampler uses it: named dtyped columns plus
row-major data (only row counts and dtypes are ever consumed here). -/
structure DataFrame where
  cols : List (String × PandasDtype)
  rows : List (List J)

/-! ### `DescriptionGenerator`: type inference -/

namespace DescriptionGenerator

/-- `DescriptionGenerator._infer_data_type`: Python type of a value.  The
`isinstance` chain tests bool before int, so booleans are never "int". -/
def infer_data_type : J → String
  | .null => "null"
  | .bool _ => "bool"
  | .int _ => "int"
  | .float _ => "float"
  | .str _ => "str"
  | .arr _ => "list"
  | .obj _ => "dict"

/-- The if/elif chain of `_get_data_types_from_dataframe` applied to one
column's dtype: `is_integer_dtype → "int"`, `is_float_dtype → "float"`,
`is_bool_dtype → "bool"`, `is_datetime64_any_dtype → "datetime"`,
`is_object_dtype → "str"`, else `str(dtype)`. -/
def dtypeTag : PandasDtype → String
  | .integer => "int"
  | .floating => "float"
  | .boolean => "bool"
  | .datetime64 => "datetime"
  | .object => "str"
  | .other name => name

/-- `_get_data_types_from_dataframe`: one tag per column. -/
def get_data_types_from_dataframe (df : DataFrame) : List (String × String) :=
  df.cols.map fun p => (p.1, dtypeTag p.2)

/-- The comprehension
`[record.get(field) for record in records[:10] if field in record]`. -/
def field_sample_values (records : List PyDict) (field : String) : List J :=
  (records.take 10).filterMap fun r => dictGet r field

/-- `[self._infer_data_type(v) for v in sample_values if v is not None]`. -/
def nonNullTypes (vals : List J) : List String :=
  (vals.filter fun v => match v with | J.null => false | _ => true).map infer_data_type

/-- Python `max(iterable, key=types.count)`: the first element of the
iterable attaining the maximal count (ties keep the earlier element of
the iteration). -/
def maxByCount (types : List String) : List String → Option String
  | [] => none
  | x :: xs =>
    some (xs.foldl (fun best y => if types.count best < types.count y then y else best) x)

/-- The iterable actually passed to `max` is `set(types)`.  A CPython set
over strings iterates in an order determined by randomised hashing, so
the embedding takes the order as a parameter constrained only to
enumerate the distinct elements. -/
def isSetOrder (order types : List String) : Prop :=
  order.Nodup ∧ ∀ t, t ∈ order ↔ t ∈ types

/-- The dtype `_get_data_types_from_records` assigns to one field, given
the iteration order the runtime chooses for `set(types)`:
no sampled occurrence → "null"; only None occurrences → "null";
otherwise `max(set(types), key=types.count)`. -/
def record_field_dtype (records : List PyDict) (field : String) (order : List String) : String :=
  match field_sample_values records field with
  | [] => "null"
  | sample =>
    match nonNullTypes sample with
    | [] => "null"
    | types => (maxByCount types order).getD "null"

end DescriptionGenerator

/-! ### ijson event streams and `JSONProcessor.get_top_n` -/

/-- Numbers as delivered by ijson scalar events. -/
inductive JNum where
  | int (n : Int)
  | dec (q : ℚ)

/-- The Python value of a number event. -/
def JNum.toJ : JNum → J
  | .int n => J.int n
  | .dec q => J.float q

/-- The events produced by `ijson.parse`. -/
inductive IEvent where
  | start_map
  | end_map
  | map_key (k : String)
  | start_array
  | end_array
  | null
  | boolean (b : Bool)
  | number (v : JNum)
  | string (s : String)

/-- ijson's prefix for member `k` of the object at prefix `p`. -/
def childKey (p k : String) : String := if p = "" then k else p ++ "." ++ k

/-- ijson's prefix for the elements of the array at prefix `p`. -/
def childItem (p : String) : String := if p = "" then "item" else p ++ ".item"

mutual

/-- The `(prefix, event, value)` stream `ijson.parse` emits for a
document, with `p` the prefix of the document root. -/
def ijsonEvents : J → String → List (String × IEvent)
  | .null, p => [(p, .null)]
  | .bool b, p => [(p, .boolean b)]
  | .int n, p => [(p, .number (.int n))]
  | .float q, p => [(p, .number (.dec q))]
  | .str s, p => [(p, .string s)]
  | .arr xs, p => (p, .start_array) :: (ijsonArr xs (childItem p) ++ [(p, .end_array)])
  | .obj kvs, p => (p, .start_map) :: (ijsonObj kvs p ++ [(p, .end_map)])

/-- Events of the elements of an array, all at prefix `p`. -/
def ijsonArr : List J → String → List (String × IEvent)
  | [], _ => []
  | x :: xs, p => ijsonEvents x p ++ ijsonArr xs p

/-- Events of the members of an object at prefix `p`. -/
def ijsonObj : List (String × J) → String → List (String × IEvent)
  | [], _ => []
  | kv :: r, p => (p, .map_key kv.1) :: (ijsonEvents kv.2 (childKey p kv.1) ++ ijsonObj r p)

end

/-- The value collected from an event by `get_top_n`'s filter
`event in ('string', 'number', 'boolean')`; structural and null events
yield nothing. -/
def scalarOf : IEvent → Option J
  | .string s => some (J.str s)
  | .number v => some v.toJ
  | .boolean b => some (J.bool b)
  | _ => none

namespace JSONProcessor

/-- Lookup in the samples accumulator. -/
def samplesGet : List (String × List J) → String → Option (List J)
  | [], _ => none
  | q :: s, p => if q.1 = p then some q.2 else samplesGet s p

/-- Replace the (first) entry for a present key. -/
def samplesSet : List (String × List J) → String → List J → List (String × List J)
  | [], _, _ => []
  | q :: s, p, vs => if q.1 = p then (p, vs) :: s else q :: samplesSet s p vs

/-- One event applied to the accumulator: on a scalar event,
`samples[prefix]` materialises an empty defaultdict entry when absent,
and the value is appended only while the per-path list is shorter than
`n`. -/
def sampleStep (n : Nat) (samples : List (String × List J)) (pe : String × IEvent) :
    List (String × List J) :=
  match scalarOf pe.2 with
  | none => samples
  | some v =>
    match samplesGet samples pe.1 with
    | none => if 0 < n then samples ++ [(pe.1, [v])] else samples ++ [(pe.1, [])]
    | some vs => if vs.length < n then samplesSet samples pe.1 (vs ++ [v]) else samples

/-- `JSONProcessor.get_top_n`: a single pass over the event stream,
keyed by field path. -/
def get_top_n (evs : List (String × IEvent)) (n : Nat) : List (String × List J) :=
  evs.foldl (sampleStep n) []

end JSONProcessor

namespace DescriptionGenerator

/-- The `for val in sample_values: if val is not None: ... break` loop. -/
def firstNonNull : List J → Option J
  | [] => none
  | J.null :: t => firstNonNull t
  | v :: _ => some v

/-- The type inferred from one path's sample list: the type of the first
non-None value, "null" when all sampled values are None (the loop's
`else` clause). -/
def sample_type (vals : List J) : String :=
  match firstNonNull vals with
  | some v => infer_data_type v
  | none => "null"

/-- The `.json` branch of `_prepare_data_sample`: one inferred type per
field path, from the first non-None sampled value, "null" when every
sampled value is None; a path with an empty sample list gets no entry. -/
def json_data_types (sample : List (String × List J)) : List (String × String) :=
  sample.filterMap fun pv =>
    match pv.2 with
    | [] => none
    | _ => some (pv.1, sample_type pv.2)

end DescriptionGenerator

/-- The scalar values observed at path `p` in an event stream, in order
(the values `get_top_n` would collect at `p` were `n` unbounded). -/
def scalarsAt (p : String) (evs : List (String × IEvent)) : List J :=
  evs.filterMap fun pe => if pe.1 = p then scalarOf pe.2 else none

/-- The keys of a samples accumulator. -/
def keysOf (s : List (String × List J)) : List String :=
  s.map Prod.fst

/-! ### Processor `get_top_n` variants (files modelled as their line or
row contents) -/

namespace BaseProcessor

/-- `BaseProcessor.get_top_n` on list-shaped data:
`data[:n] if len(data) > n else data`. -/
def get_top_n_list (data : List J) (n : Nat) : List J :=
  if n < data.length then data.take n else data

/-- `BaseProcessor.get_top_n` on DataFrame-shaped data: `data.head(n)`. -/
def head (df : DataFrame) (n : Nat) : DataFrame :=
  ⟨df.cols, df.rows.take n⟩

/-- An ElementTree element as `XMLProcessor.read` returns it: a tag and
the child elements (text and attributes play no role in sampling
counts; `read_chunks` chunks by the root's children). -/
inductive XmlElem where
  | mk (tag : String) (children : List XmlElem)

/-- The direct children of an element — the XML reader's unit count. -/
def XmlElem.childCount : XmlElem → Nat
  | .mk _ cs => cs.length

/-- The native shapes `BaseProcessor.get_top_n` dispatches on:
a pandas DataFrame (`hasattr(data, 'head')`), a Python list, a Python
dict (an XLSX `read()` without a sheet selector returns all sheets keyed
by name), and any other object (an XML `read()` returns the ElementTree
root). -/
inductive PyData where
  | frame (df : DataFrame)
  | records (xs : List J)
  | mapping (sheets : List (String × DataFrame))
  | element (root : XmlElem)

/-- `BaseProcessor.get_top_n` in full: `data.head(n)` for DataFrames,
`data[:n] if len(data) > n else data` for lists, and the data returned
unchanged both for dicts ("can't really get top N of a dict") and for
any other shape (the final `else` branch). -/
def get_top_n (data : PyData) (n : Nat) : PyData :=
  match data with
  | .frame df => .frame (head df n)
  | .records xs => .records (get_top_n_list xs n)
  | .mapping sheets => .mapping sheets
  | .element root => .element root

end BaseProcessor

namespace CSVProcessor

/-- `CSVProcessor.get_top_n`: `pd.read_csv(path, nrows=n)`, i.e. the
first `n` data rows of the file's full table, same header and dtypes. -/
def get_top_n (full : DataFrame) (n : Nat) : DataFrame :=
  ⟨full.cols, full.rows.take n⟩

end CSVProcessor

namespace JSONLProcessor

/-- `json.loads` applied to each line in turn; the first failure raises
(`Except.error` carries the offending line). -/
def loadsAll : List String → Except String (List J)
  | [] => .ok []
  | s :: t =>
    match json_loads s with
    | none => .error s
    | some v => (loadsAll t).map (v :: ·)

/-- `JSONLProcessor.read`: every line of the file, stripped, blank lines
skipped, each remaining line parsed. -/
def read (lines : List String) : Except String (List J) :=
  loadsAll ((lines.map pyStrip).filter (· ≠ ""))

/-- `JSONLProcessor.get_top_n`: `enumerate(f)` with `if i >= n: break`
examines only the first `n` physical lines; blank lines among them are
skipped but still consume an index. -/
def get_top_n (lines : List String) (n : Nat) : Except String (List J) :=
  loadsAll (((lines.take n).map pyStrip).filter (· ≠ ""))

end JSONLProcessor

namespace TXTProcessor

/-- `TXTProcessor.read_lines` with its default `strip=True`. -/
def read_lines (lines : List String) : List String :=
  lines.map pyStrip

/-- `TXTProcessor.get_top_n`: the first `n` yielded lines (every physical
line counts, none are skipped). -/
def get_top_n (lines : List String) (n : Nat) : List String :=
  (read_lines lines).take n

end TXTProcessor

/-! ### Retry wrapper around the generation call -/

namespace DescriptionGenerator

/-- The classification of a caught generation error
(`is_rate_limit` in `generate`). -/
def is_rate_limit (error_str : String) : Bool :=
  pyContains error_str "429" ||
  pyContains error_str "413" ||
  pyContains (pyLower error_str) "rate_limit" ||
  pyContains (pyLower error_str) "too many requests" ||
  pyContains (pyLower error_str) "request too large"

/-- A match of `try again in (\d+)ms` anchored at the head of the
(case-folded) text: the literal "try again in " followed by a nonempty
digit run followed by "ms"; the captured group is the digit run. -/
def tryMatchWaitAt (l : List Char) : Option Nat :=
  if ("try again in ".toList).isPrefixOf l then
    let rest := l.drop 13
    let ds := rest.takeWhile Char.isDigit
    if ds.isEmpty then none
    else if ("ms".toList).isPrefixOf (rest.drop ds.length) then some (natOfDigits ds)
    else none
  else none

/-- Leftmost match of the pattern in the text (`re.search` semantics). -/
def findWaitMs : List Char → Option Nat
  | [] => none
  | c :: t =>
    match tryMatchWaitAt (c :: t) with
    | some nv => some nv
    | none => findWaitMs t

/-- `re.search(r'try again in (\d+)ms', error_str, re.IGNORECASE)`,
as the number of milliseconds when present. -/
def extract_wait_ms (error_str : String) : Option Nat :=
  findWaitMs (pyLower error_str).toList

/-- `max_retries = 3`. -/
def max_retries : Nat := 3

/-- `retry_delay = 2` seconds. -/
def retry_delay : ℚ := 2

/-- The wait slept before retrying after failed attempt `attempt`
(zero-indexed): exponential backoff `retry_delay * 2 ** attempt`,
overridden by a server-suggested wait in milliseconds when the message
carries one, floored at one second. -/
def compute_wait (attempt : Nat) (error_str : String) : ℚ :=
  match extract_wait_ms error_str with
  | some msv => max ((msv : ℚ) / 1000) 1
  | none => retry_delay * 2 ^ attempt

/-- The behaviour of one `llm_client.generate` call. -/
inductive Outcome where
  | ok (resp : String)
  | err (msg : String)
deriving DecidableEq, Repr

/-- What an execution of the retry loop did: its result (response or the
re-raised error message), the sleeps performed in order, and how many
attempts were made. -/
structure RetryTrace where
  result : Except String String
  waits : List ℚ
  attempts : Nat
deriving Repr

/-- The `for attempt in range(max_retries)` loop of `generate`, driven by
the outcome of each attempt.  Fuel equals the remaining loop iterations,
so the `fuel = 0` case is never reached from `run_retry`. -/
def retryGo (e : Nat → Outcome) : Nat → Nat → List ℚ → RetryTrace
  | 0, attempt, ws => ⟨.error "", ws.reverse, attempt⟩
  | fuel + 1, attempt, ws =>
    match e attempt with
    | .ok r => ⟨.ok r, ws.reverse, attempt + 1⟩
    | .err m =>
      if is_rate_limit m = true ∧ attempt < max_retries - 1 then
        retryGo e fuel (attempt + 1) (compute_wait attempt m :: ws)
      else ⟨.error m, ws.reverse, attempt + 1⟩

/-- The whole retry wrapper around the generation call. -/
def run_retry (e : Nat → Outcome) : RetryTrace :=
  retryGo e max_retries 0 []

/-! ### `_extract_json_from_response` -/

/-- `'file' in parsed or 'columns' in parsed`. -/
def hasKey (kvs : List (String × J)) (k : String) : Bool :=
  kvs.any fun p => p.1 = k

/-- The synthesized descriptor for a legacy bare-array response. -/
def default_file_descriptor : J :=
  J.obj [("name", J.str "Dataset"),
         ("description", J.str "A dataset containing structured records.")]

/-- Wrap a legacy columns-only array into the new response shape. -/
def wrap_columns (xs : List J) : J :=
  J.obj [("file", default_file_descriptor), ("columns", J.arr xs)]

/-- Acceptance applied to a directly parsed value (strategies 1 and 2):
an object mentioning `file` or `columns` is returned as-is, a bare array
is wrapped, anything else falls through to the next strategy. -/
def accept_parsed : J → Option J
  | J.obj kvs =>
    if hasKey kvs "file" || hasKey kvs "columns" then some (J.obj kvs) else none
  | J.arr xs => some (wrap_columns xs)
  | _ => none

/-- The fenced code block located by
`re.search(r'```(?:json)?\s*([\s\S]*?)```', response)`: the inner text of
the first fence pair (an optional literal "json" tag dropped), stripped.
The `\s*` skip is absorbed by the strip. -/
def find_code_block (s : String) : Option String :=
  let cs := s.toList
  match findSubIdx "```".toList cs with
  | none => none
  | some i =>
    let r1 := cs.drop (i + 3)
    let r2 := if ("json".toList).isPrefixOf r1 then r1.drop 4 else r1
    match findSubIdx "```".toList r2 with
    | none => none
    | some j => some (pyStrip (String.mk (r2.take j)))

/-- Python slice `response[i : j + 1]`. -/
def pySlice (cs : List Char) (i j : Nat) : String :=
  String.mk ((cs.drop i).take (j + 1 - i))

/-- The acceptance step of strategy 3: the slice must parse to an object
carrying `file` or `columns`. -/
def accept_object : Option J → Option J
  | some (J.obj kvs) =>
    if hasKey kvs "file" || hasKey kvs "columns" then some (J.obj kvs) else none
  | _ => none

/-- Strategy 3: slice from the first opening brace to the last closing
brace (guarded by `first_obj < first_arr` when a bracket exists), parsed
and accepted only as an object carrying `file` or `columns`. -/
def strat3 (r : String) : Option J :=
  match charIdx '{' r.toList, charLastIdx '}' r.toList with
  | some i, some j =>
    if (match charIdx '[' r.toList with | none => true | some a => decide (i < a)) then
      accept_object (json_loads (pySlice r.toList i j))
    else none
  | _, _ => none

/-- The acceptance step of strategy 4: the slice must parse to a bare
array, which is wrapped with the default file descriptor. -/
def accept_array : Option J → Option J
  | some (J.arr xs) => some (wrap_columns xs)
  | _ => none

/-- Strategy 4: slice from the first opening bracket to the last closing
bracket, parsed and accepted only as a bare array, then wrapped. -/
def strat4 (r : String) : Option J :=
  match charIdx '[' r.toList, charLastIdx ']' r.toList with
  | some a, some b => accept_array (json_loads (pySlice r.toList a b))
  | _, _ => none

/-- The `ValueError` raised when every strategy has failed; its message
embeds the response text current at that point. -/
def extraction_error (r : String) : Except String J :=
  .error ("Could not extract valid JSON from LLM response: " ++ r)

/-- Strategies 3 and 4 applied to the current response text, then the
error. -/
def extract_fallback (r : String) : Except String J :=
  match strat3 r with
  | some v => .ok v
  | none =>
    match strat4 r with
    | some v => .ok v
    | none => extraction_error r

/-- `DescriptionGenerator._extract_json_from_response`.  When a fenced
block is found whose content fails to parse, that inner text replaces the
response for the remaining strategies and for the error message; when the
block parses to an unacceptable value, the original response is kept. -/
def extract_json_from_response (response : String) : Except String J :=
  match (json_loads response).bind accept_parsed with
  | some v => .ok v
  | none =>
    match find_code_block response with
    | some code_content =>
      (match json_loads code_content with
       | some parsed =>
         (match accept_parsed parsed with
          | some v => .ok v
          | none => extract_fallback response)
       | none => extract_fallback code_content)
    | none => extract_fallback response

/-- Strategy 1 in isolation: direct parse plus acceptance. -/
def strat1 (s : String) : Option J :=
  (json_loads s).bind accept_parsed

/-- Strategy 2 in isolation: fenced-block parse plus acceptance. -/
def strat2 (s : String) : Option J :=
  (find_code_block s).bind fun c => (json_loads c).bind accept_parsed

/-- The response text in force when the strategies are exhausted: the raw
response, unless a fenced block was found whose content failed to parse,
in which case that inner text. -/
def final_response (response : String) : String :=
  match find_code_block response with
  | some c =>
    (match json_loads c with
     | none => c
     | some _ => response)
  | none => response

/-- A structurally valid extraction result: an object that mentions
`file` or `columns`. -/
def validStructure : J → Bool
  | J.obj kvs => hasKey kvs "file" || hasKey kvs "columns"
  | _ => false

/-! ### Profile assembly -/

/-- `data_types.get(col_name, 'unknown')` where `col_name` may be any
value (a non-string never equals a string key). -/
def data_type_for (data_types : List (String × String)) : J → String
  | J.str s => (lookupStr data_types s).getD "unknown"
  | _ => "unknown"

/-- One iteration of the assembly loop in `generate`: stamp a column
description with the programmatically determined data type, keyed by the
column's `name` (empty string when absent). -/
def assemble_column (data_types : List (String × String)) (col_desc : PyDict) : PyDict :=
  dictSet col_desc "data_type"
    (J.str (data_type_for data_types ((dictGet col_desc "name").getD (J.str ""))))

/-- The assembly loop over all LLM column descriptions. -/
def assemble_columns (data_types : List (String × String)) (llm_descriptions : List PyDict) :
    List PyDict :=
  llm_descriptions.map (assemble_column data_types)

/-! ### The `.txt` path of `generate` -/

/-- The per-file profile `generate` returns. -/
structure FileProfile where
  filename : String
  file_path : String
  fileName : String
  fileDescription : String
  columns : List PyDict

/-- The `.txt`/`.text` branch of `_prepare_data_sample`: the first five
(stripped) lines joined by newlines, and no data types. -/
def prepare_data_sample_txt (lines : List String) : String × List (String × String) :=
  (String.intercalate "\n" (TXTProcessor.get_top_n lines 5), [])

/-- The early return of `generate` for `.txt`/`.text` files: minimal
profile, empty description, no columns, no generation call. -/
def generate_txt (filename file_path stem : String) : FileProfile :=
  ⟨filename, file_path, stem, "", []⟩

/-! ### Claim-modelled comparison definition for C7 -/

/-- First-occurrence deduplication (deterministic, unlike a Python set). -/
def distinctFirst (l : List String) : List String :=
  l.foldl (fun acc x => if acc.contains x then acc else acc ++ [x]) []

/-- Modelled from the claim's wording, not from the source (for the C7
refinement comparison): the majority type of a field over the first 10
records with ties broken by the first-encountered type. -/
def claimed_record_field_type (records : List PyDict) (field : String) : String :=
  let types := nonNullTypes (field_sample_values records field)
  (maxByCount types (distinctFirst types)).getD "null"

/-- Modelled from the claim's wording, not from the source (for the C7
refinement comparison): whole-document JSON typing per C7 — root list →
one type per field of the records of the full list; root map → one type
per top-level key from its value. -/
def claimed_json_typing : J → List (String × String)
  | J.arr xs =>
    let records : List PyDict := xs.filterMap fun x =>
      match x with
      | J.obj kvs => some kvs
      | _ => none
    (distinctFirst (records.foldl (fun acc r => acc ++ r.map (·.1)) [])).map
      fun f => (f, claimed_record_field_type records f)
  | J.obj kvs => kvs.map fun kv => (kv.1, infer_data_type kv.2)
  | _ => []

end DescriptionGenerator

/-! ## Helper lemmas: the samples accumulator and the streaming sampler -/

namespace JSONProcessor

theorem samplesGet_append_self (s : List (String × List J)) (p : String) (vs : List J)
    (h : samplesGet s p = none) : samplesGet (s ++ [(p, vs)]) p = some vs := by
  induction s with
  | nil => simp [samplesGet]
  | cons q t ih =>
    by_cases hq : q.1 = p
    · simp [samplesGet, hq] at h
    · simp only [samplesGet, hq, if_neg, List.cons_append] at h ⊢
      simpa [samplesGet, hq] using ih h

theorem samplesGet_append_ne (s : List (String × List J)) (p q : String) (vs : List J)
    (h : q ≠ p) : samplesGet (s ++ [(q, vs)]) p = samplesGet s p := by
  induction s with
  | nil => simp [samplesGet, h]
  | cons r t ih =>
    by_cases hr : r.1 = p <;> simp [samplesGet, hr, ih]

theorem samplesGet_set_self (s : List (String × List J)) (p : String) (vs vs0 : List J)
    (h : samplesGet s p = some vs0) : samplesGet (samplesSet s p vs) p = some vs := by
  induction s with
  | nil => simp [samplesGet] at h
  | cons q t ih =>
    by_cases hq : q.1 = p
    · simp [samplesSet, samplesGet, hq]
    · simp only [samplesGet, hq, if_neg] at h
      simpa [samplesSet, samplesGet, hq] using ih h

theorem samplesGet_set_ne (s : List (String × List J)) (p q : String) (vs : List J)
    (h : q ≠ p) : samplesGet (samplesSet s q vs) p = samplesGet s p := by
  induction s with
  | nil => simp [samplesSet, samplesGet]
  | cons r t ih =>
    by_cases hr : r.1 = q
    · have hr' : r.1 ≠ p := by rw [hr]; exact h
      simp [samplesSet, samplesGet, hr, hr', h]
    · by_cases hp : r.1 = p <;> simp [samplesSet, samplesGet, hr, hp, ih, Ne.symm h]

theorem sampleStep_get_ne (n : Nat) (acc : List (String × List J)) (qe : String × IEvent)
    (p : String) (h : qe.1 ≠ p) :
    samplesGet (sampleStep n acc qe) p = samplesGet acc p := by
  cases hs : scalarOf qe.2 with
  | none => simp [sampleStep, hs]
  | some v =>
    cases hg : samplesGet acc qe.1 with
    | none =>
      simp only [sampleStep, hs, hg]
      split <;> rw [samplesGet_append_ne _ _ _ _ h]
    | some vs =>
      simp only [sampleStep, hs, hg]
      split
      · exact samplesGet_set_ne _ _ _ _ h
      · rfl

theorem scalarsAt_cons (p : String) (qe : String × IEvent) (evs : List (String × IEvent)) :
    scalarsAt p (qe :: evs) =
      match (if qe.1 = p then scalarOf qe.2 else none) with
      | none => scalarsAt p evs
      | some v => v :: scalarsAt p evs := by
  cases h : (if qe.1 = p then scalarOf qe.2 else none) <;>
    simp [scalarsAt, List.filterMap_cons, h]

/-- The central invariant of `get_top_n`: after folding any event stream
into any accumulator, the entry at `p` extends what the accumulator held
with the next scalar values observed at `p`, capped at `n`. -/
theorem foldl_sampleStep_get (n : Nat) :
    ∀ (evs : List (String × IEvent)) (acc : List (String × List J)) (p : String),
      samplesGet (List.foldl (sampleStep n) acc evs) p =
        match samplesGet acc p, scalarsAt p evs with
        | some vs, sc => some (vs ++ sc.take (n - vs.length))
        | none, [] => none
        | none, sc => some (sc.take n) := by
  intro evs
  induction evs with
  | nil =>
    intro acc p
    cases h : samplesGet acc p <;> simp [scalarsAt, h]
  | cons qe evs ih =>
    intro acc p
    rw [List.foldl_cons, ih (sampleStep n acc qe) p]
    by_cases hqp : qe.1 = p
    · cases hs : scalarOf qe.2 with
      | none =>
        have hstep : sampleStep n acc qe = acc := by simp [sampleStep, hs]
        have hsc : scalarsAt p (qe :: evs) = scalarsAt p evs := by
          rw [scalarsAt_cons]; simp [hqp, hs]
        rw [hstep, hsc]
      | some v =>
        have hsc : scalarsAt p (qe :: evs) = v :: scalarsAt p evs := by
          rw [scalarsAt_cons]; simp [hqp, hs]
        rw [hsc]
        rcases qe with ⟨q, ev⟩
        simp only at hqp hs
        subst hqp
        cases hg : samplesGet acc q with
        | none =>
          rcases Nat.eq_zero_or_pos n with hn | hn
          · subst hn
            have hstep : sampleStep 0 acc (q, ev) = acc ++ [(q, [])] := by
              simp [sampleStep, hs, hg]
            rw [hstep, samplesGet_append_self _ _ _ hg]
            simp
          · obtain ⟨m, rfl⟩ : ∃ m, n = m + 1 := ⟨n - 1, by omega⟩
            have hstep : sampleStep (m + 1) acc (q, ev) = acc ++ [(q, [v])] := by
              simp [sampleStep, hs, hg]
            rw [hstep, samplesGet_append_self _ _ _ hg]
            simp
        | some vs =>
          by_cases hlt : vs.length < n
          · have hstep : sampleStep n acc (q, ev) = samplesSet acc q (vs ++ [v]) := by
              simp [sampleStep, hs, hg, hlt]
            rw [hstep, samplesGet_set_self _ _ _ _ hg]
            obtain ⟨m, hm⟩ : ∃ m, n - vs.length = m + 1 := ⟨n - vs.length - 1, by omega⟩
            have hm' : n - (vs.length + 1) = m := by omega
            simp [hm, hm', List.append_assoc]
          · have hstep : sampleStep n acc (q, ev) = acc := by
              simp [sampleStep, hs, hg, hlt]
            rw [hstep, hg]
            have h0 : n - vs.length = 0 := by omega
            simp [h0]
    · have hsc : scalarsAt p (qe :: evs) = scalarsAt p evs := by
        rw [scalarsAt_cons]; simp [hqp]
      rw [sampleStep_get_ne n acc qe p hqp, hsc]

/-- Specialisation to an empty initial accumulator: the per-path content
of `get_top_n` is exactly the first `n` scalar values observed there. -/
theorem get_top_n_getD (evs : List (String × IEvent)) (n : Nat) (p : String) :
    (samplesGet (get_top_n evs n) p).getD [] = (scalarsAt p evs).take n := by
  have h := foldl_sampleStep_get n evs [] p
  rw [get_top_n]
  cases hsc : scalarsAt p evs <;> rw [hsc] at h <;> simp [samplesGet] at h <;> simp [h]

/-- The sampler has an entry for `p` exactly when some scalar token was
observed at `p`. -/
theorem get_top_n_none_iff (evs : List (String × IEvent)) (n : Nat) (p : String) :
    samplesGet (get_top_n evs n) p = none ↔ scalarsAt p evs = [] := by
  have h := foldl_sampleStep_get n evs [] p
  rw [get_top_n]
  cases hsc : scalarsAt p evs <;> rw [hsc] at h <;> simp [samplesGet] at h <;> simp [h]

/-- The some-form of the characterisation. -/
theorem get_top_n_some (evs : List (String × IEvent)) (n : Nat) (p : String) (vs : List J)
    (h : samplesGet (get_top_n evs n) p = some vs) : vs = (scalarsAt p evs).take n := by
  have hd := get_top_n_getD evs n p
  rw [h] at hd
  simpa using hd

theorem samplesGet_none_iff_not_mem (s : List (String × List J)) (p : String) :
    samplesGet s p = none ↔ p ∉ keysOf s := by
  induction s with
  | nil => simp [samplesGet, keysOf]
  | cons q t ih =>
    by_cases hq : q.1 = p
    · simp [samplesGet, hq, keysOf]
    · have hskip : samplesGet (q :: t) p = samplesGet t p := by simp [samplesGet, hq]
      rw [hskip, ih]
      simp only [keysOf, List.map_cons, List.mem_cons, not_or]
      constructor
      · intro hn
        exact ⟨fun hp => hq hp.symm, hn⟩
      · intro hn
        exact hn.2

theorem keysOf_samplesSet (s : List (String × List J)) (p : String) (vs : List J) :
    keysOf (samplesSet s p vs) = keysOf s := by
  induction s with
  | nil => rfl
  | cons q t ih =>
    have ih' : List.map Prod.fst (samplesSet t p vs) = List.map Prod.fst t := ih
    by_cases hq : q.1 = p <;> simp [samplesSet, keysOf, hq, ih']

theorem sampleStep_keys_nodup (n : Nat) (acc : List (String × List J)) (qe : String × IEvent)
    (h : (keysOf acc).Nodup) : (keysOf (sampleStep n acc qe)).Nodup := by
  cases hs : scalarOf qe.2 with
  | none => simpa [sampleStep, hs] using h
  | some v =>
    cases hg : samplesGet acc qe.1 with
    | none =>
      have hnm : qe.1 ∉ keysOf acc := (samplesGet_none_iff_not_mem _ _).mp hg
      have hco : ∀ ws : List J, (keysOf (acc ++ [(qe.1, ws)])).Nodup := by
        intro ws
        have hkeys : keysOf (acc ++ [(qe.1, ws)]) = keysOf acc ++ [qe.1] := by
          simp [keysOf]
        rw [hkeys]
        exact (List.perm_append_singleton _ _).nodup_iff.mpr (List.nodup_cons.mpr ⟨hnm, h⟩)
      simp only [sampleStep, hs, hg]
      split <;> exact hco _
    | some vs =>
      simp only [sampleStep, hs, hg]
      split
      · simpa [keysOf_samplesSet] using h
      · exact h

theorem foldl_sampleStep_keys_nodup (n : Nat) :
    ∀ (evs : List (String × IEvent)) (acc : List (String × List J)),
      (keysOf acc).Nodup → (keysOf (List.foldl (sampleStep n) acc evs)).Nodup := by
  intro evs
  induction evs with
  | nil => intro acc h; simpa using h
  | cons qe evs ih =>
    intro acc h
    rw [List.foldl_cons]
    exact ih _ (sampleStep_keys_nodup n acc qe h)

/-- The sampler's output never repeats a field path. -/
theorem get_top_n_keys_nodup (evs : List (String × IEvent)) (n : Nat) :
    (keysOf (get_top_n evs n)).Nodup :=
  foldl_sampleStep_keys_nodup n evs [] (by simp [keysOf])

end JSONProcessor

/-- A collected scalar value is never Python `None`: the event filter
admits only string, number and boolean tokens. -/
theorem scalarOf_ne_null (e : IEvent) (v : J) (h : scalarOf e = some v) : v ≠ J.null := by
  cases e with
  | string s => simp [scalarOf] at h; rw [← h]; simp
  | boolean b => simp [scalarOf] at h; rw [← h]; simp
  | number w => cases w <;> simp [scalarOf, JNum.toJ] at h <;> rw [← h] <;> simp
  | _ => simp [scalarOf] at h

namespace DescriptionGenerator

open JSONProcessor

theorem infer_ne_null (v : J) (h : v ≠ J.null) : infer_data_type v ≠ "null" := by
  cases v <;> first
    | exact absurd rfl h
    | (simp only [infer_data_type]; decide)

theorem firstNonNull_cons_ne (a : J) (t : List J) (h : a ≠ J.null) :
    firstNonNull (a :: t) = some a := by
  cases a <;> first
    | exact absurd rfl h
    | rfl

theorem sample_type_ne_null (vs : List J) (hne : vs ≠ []) (hv : ∀ v ∈ vs, v ≠ J.null) :
    sample_type vs ≠ "null" := by
  cases vs with
  | nil => exact absurd rfl hne
  | cons a t =>
    have ha : a ≠ J.null := hv a (List.mem_cons_self a t)
    rw [sample_type, firstNonNull_cons_ne a t ha]
    exact infer_ne_null a ha

theorem lookupStr_json_data_types_none (sample : List (String × List J)) (p : String)
    (h : ∀ r ∈ sample, r.1 ≠ p) : lookupStr (json_data_types sample) p = none := by
  induction sample with
  | nil => rfl
  | cons q t ih =>
    have hq : q.1 ≠ p := h q (List.mem_cons_self q t)
    have ht : ∀ r ∈ t, r.1 ≠ p := fun r hr => h r (List.mem_cons_of_mem _ hr)
    cases hv : q.2 with
    | nil => simpa [json_data_types, List.filterMap_cons, hv] using ih ht
    | cons a as =>
      simpa [json_data_types, List.filterMap_cons, hv, lookupStr, hq] using ih ht

/-- Lookup into the `.json`-branch TypeMap, for a duplicate-free sample:
no entry for an unsampled path, no entry for a path whose sample list is
empty, and otherwise the type of the first non-None sampled value. -/
theorem lookup_json_data_types (sample : List (String × List J)) (p : String)
    (hnd : (keysOf sample).Nodup) :
    lookupStr (json_data_types sample) p =
      match samplesGet sample p with
      | none => none
      | some [] => none
      | some vs => some (sample_type vs) := by
  induction sample with
  | nil => rfl
  | cons q t ih =>
    simp only [keysOf, List.map_cons] at hnd
    obtain ⟨hq_nm, hnd'⟩ := List.nodup_cons.mp hnd
    by_cases hq : q.1 = p
    · subst hq
      have hnone : ∀ r ∈ t, r.1 ≠ q.1 := by
        intro r hr hcontra
        exact hq_nm (hcontra ▸ List.mem_map_of_mem Prod.fst hr)
      cases hv : q.2 with
      | nil =>
        have hsg : samplesGet (q :: t) q.1 = some ([] : List J) := by
          simp [samplesGet, hv]
        rw [hsg]
        simpa [json_data_types, List.filterMap_cons, hv] using
          lookupStr_json_data_types_none t q.1 hnone
      | cons a as =>
        have hsg : samplesGet (q :: t) q.1 = some (a :: as) := by
          simp [samplesGet, hv]
        rw [hsg]
        simp [json_data_types, List.filterMap_cons, hv, lookupStr]
    · have hsg : samplesGet (q :: t) p = samplesGet t p := by
        simp [samplesGet, hq]
      rw [hsg]
      cases hv : q.2 with
      | nil =>
        simpa [json_data_types, List.filterMap_cons, hv] using ih hnd'
      | cons a as =>
        simpa [json_data_types, List.filterMap_cons, hv, lookupStr, hq] using ih hnd'

theorem dictGet_dictSet_self (d : PyDict) (k : String) (v : J) :
    dictGet (dictSet d k v) k = some v := by
  induction d with
  | nil => simp [dictSet, dictGet]
  | cons q t ih =>
    by_cases hq : q.1 = k <;> simp [dictSet, dictGet, hq, ih]

theorem dictGet_dictSet_ne (d : PyDict) (k k' : String) (v : J) (h : k' ≠ k) :
    dictGet (dictSet d k v) k' = dictGet d k' := by
  induction d with
  | nil => simp [dictSet, dictGet, Ne.symm h]
  | cons q t ih =>
    by_cases hq : q.1 = k
    · have hq' : q.1 ≠ k' := by rw [hq]; exact Ne.symm h
      simp [dictSet, dictGet, hq, hq', Ne.symm h]
    · by_cases hk' : q.1 = k' <;> simp [dictSet, dictGet, hq, hk', ih, h]

/-! ### Maximality of `max(set(types), key=types.count)` -/

theorem foldl_maxBy_spec (types : List String) :
    ∀ (xs : List String) (x : String),
      (xs.foldl (fun best y => if types.count best < types.count y then y else best) x) ∈ x :: xs ∧
      ∀ t ∈ x :: xs, types.count t ≤
        types.count (xs.foldl (fun best y => if types.count best < types.count y then y else best) x) := by
  intro xs
  induction xs with
  | nil =>
    intro x
    refine ⟨List.mem_cons_self x [], ?_⟩
    intro t ht
    rcases List.mem_cons.mp ht with rfl | hf
    · exact le_refl _
    · simp at hf
  | cons y ys ih =>
    intro x
    rw [List.foldl_cons]
    obtain ⟨hmem, hle⟩ := ih (if types.count x < types.count y then y else x)
    constructor
    · rcases List.mem_cons.mp hmem with hh | hh
      · rw [hh]
        split
        · exact List.mem_cons_of_mem _ (List.mem_cons_self _ _)
        · exact List.mem_cons_self _ _
      · exact List.mem_cons_of_mem _ (List.mem_cons_of_mem _ hh)
    · intro t ht
      have hstep :
          types.count x ≤ types.count (if types.count x < types.count y then y else x) ∧
          types.count y ≤ types.count (if types.count x < types.count y then y else x) := by
        split <;> omega
      rcases List.mem_cons.mp ht with rfl | ht'
      · exact le_trans hstep.1 (hle _ (List.mem_cons_self _ _))
      · rcases List.mem_cons.mp ht' with rfl | ht''
        · exact le_trans hstep.2 (hle _ (List.mem_cons_self _ _))
        · exact hle t (List.mem_cons_of_mem _ ht'')

theorem maxByCount_spec (types order : List String) (hne : order ≠ []) :
    ∃ m, maxByCount types order = some m ∧ m ∈ order ∧
      ∀ t ∈ order, types.count t ≤ types.count m := by
  cases order with
  | nil => exact absurd rfl hne
  | cons x xs =>
    obtain ⟨hmem, hle⟩ := foldl_maxBy_spec types xs x
    exact ⟨_, rfl, hmem, hle⟩

/-! ### Extraction strategies produce only valid structures -/

theorem validStructure_wrap (xs : List J) : validStructure (wrap_columns xs) = true := rfl

theorem accept_parsed_valid (v w : J) (h : accept_parsed v = some w) :
    validStructure w = true := by
  cases v with
  | obj kvs =>
    by_cases hk : (hasKey kvs "file" || hasKey kvs "columns") = true
    · simp only [accept_parsed, hk, if_true, Option.some.injEq] at h
      rw [← h]
      simpa [validStructure] using hk
    · simp [accept_parsed, hk] at h
  | arr xs =>
    simp only [accept_parsed, Option.some.injEq] at h
    rw [← h]
    rfl
  | null => simp [accept_parsed] at h
  | bool b => simp [accept_parsed] at h
  | int n => simp [accept_parsed] at h
  | float q => simp [accept_parsed] at h
  | str s => simp [accept_parsed] at h

theorem accept_object_valid (o : Option J) (v : J) (h : accept_object o = some v) :
    validStructure v = true := by
  cases o with
  | none => simp [accept_object] at h
  | some u =>
    cases u with
    | obj kvs =>
      by_cases hk : (hasKey kvs "file" || hasKey kvs "columns") = true
      · simp only [accept_object, hk, if_true, Option.some.injEq] at h
        rw [← h]
        simpa [validStructure] using hk
      · simp [accept_object, hk] at h
    | null => simp [accept_object] at h
    | bool b => simp [accept_object] at h
    | int n => simp [accept_object] at h
    | float q => simp [accept_object] at h
    | str s => simp [accept_object] at h
    | arr xs => simp [accept_object] at h

theorem accept_array_valid (o : Option J) (v : J) (h : accept_array o = some v) :
    validStructure v = true := by
  cases o with
  | none => simp [accept_array] at h
  | some u =>
    cases u with
    | arr xs =>
      simp only [accept_array, Option.some.injEq] at h
      rw [← h]
      rfl
    | null => simp [accept_array] at h
    | bool b => simp [accept_array] at h
    | int n => simp [accept_array] at h
    | float q => simp [accept_array] at h
    | str s => simp [accept_array] at h
    | obj kvs => simp [accept_array] at h

theorem strat3_valid (r : String) (v : J) (h : strat3 r = some v) :
    validStructure v = true := by
  unfold strat3 at h
  split at h
  · split at h
    · exact accept_object_valid _ _ h
    · simp at h
  · simp at h

theorem strat4_valid (r : String) (v : J) (h : strat4 r = some v) :
    validStructure v = true := by
  unfold strat4 at h
  split at h
  · exact accept_array_valid _ _ h
  · simp at h

theorem extract_fallback_ok (r : String) (v : J) (h : extract_fallback r = .ok v) :
    validStructure v = true ∧ (strat3 r = some v ∨ strat4 r = some v) := by
  unfold extract_fallback at h
  cases h3 : strat3 r with
  | some w =>
    rw [h3] at h
    simp at h
    subst h
    exact ⟨strat3_valid r w h3, Or.inl rfl⟩
  | none =>
    rw [h3] at h
    cases h4 : strat4 r with
    | some w =>
      rw [h4] at h
      simp at h
      subst h
      exact ⟨strat4_valid r w h4, Or.inr rfl⟩
    | none =>
      rw [h4] at h
      simp [extraction_error] at h

theorem extract_fallback_error (r m : String) (h : extract_fallback r = .error m) :
    strat3 r = none ∧ strat4 r = none ∧
      m = "Could not extract valid JSON from LLM response: " ++ r := by
  unfold extract_fallback at h
  cases h3 : strat3 r with
  | some w =>
    rw [h3] at h
    simp at h
  | none =>
    rw [h3] at h
    cases h4 : strat4 r with
    | some w =>
      rw [h4] at h
      simp at h
    | none =>
      rw [h4] at h
      simp [extraction_error] at h
      exact ⟨rfl, rfl, h.symm⟩

end DescriptionGenerator

namespace JSONLProcessor

theorem loadsAll_ok_length (ls : List String) :
    ∀ (out : List J), loadsAll ls = .ok out → out.length = ls.length := by
  induction ls with
  | nil =>
    intro out h
    simp [loadsAll] at h
    subst h
    rfl
  | cons s t ih =>
    intro out h
    cases hj : json_loads s with
    | none => simp [loadsAll, hj] at h
    | some v =>
      simp only [loadsAll, hj] at h
      cases hl : loadsAll t with
      | error e =>
        rw [hl] at h
        simp [Except.map] at h
      | ok o =>
        rw [hl] at h
        simp [Except.map] at h
        rw [← h]
        simp [ih o hl]

end JSONLProcessor

namespace DescriptionGenerator

theorem retryGo_attempts_le (e : Nat → Outcome) :
    ∀ (fuel attempt : Nat) (ws : List ℚ), (retryGo e fuel attempt ws).attempts ≤ attempt + fuel := by
  intro fuel
  induction fuel with
  | zero =>
    intro a ws
    show a ≤ a + 0
    omega
  | succ f ih =>
    intro a ws
    cases h : e a with
    | ok r =>
      have hg : retryGo e (f + 1) a ws = ⟨.ok r, ws.reverse, a + 1⟩ := by
        simp [retryGo, h]
      rw [hg]
      show a + 1 ≤ a + (f + 1)
      omega
    | err m =>
      simp only [retryGo, h]
      split
      · exact le_trans (ih (a + 1) _) (by omega)
      · show a + 1 ≤ a + (f + 1)
        omega

end DescriptionGenerator

/-! ## Claim theorems -/

namespace Claims

open DescriptionGenerator

/-- C1: For every assembled profile, each column entry's `data_type`
equals the Sampler TypeMap value for the column's `name` when that name
is present in the TypeMap and "unknown" otherwise; any `data_type` value
carried by the generation response for that column is discarded — the
stamped value is insensitive to it. -/
theorem C1_data_type_from_typemap (data_types : List (String × String)) (cols : List PyDict) :
    (∀ c ∈ cols, dictGet (assemble_column data_types c) "data_type" =
        some (J.str (data_type_for data_types ((dictGet c "name").getD (J.str ""))))) ∧
    (∀ c ∈ cols, ∀ v : J,
        dictGet (assemble_column data_types (dictSet c "data_type" v)) "data_type" =
        dictGet (assemble_column data_types c) "data_type") ∧
    (∀ s tv, lookupStr data_types s = some tv → data_type_for data_types (J.str s) = tv) ∧
    (∀ s, lookupStr data_types s = none → data_type_for data_types (J.str s) = "unknown") ∧
    (assemble_columns data_types cols = cols.map (assemble_column data_types)) := by
  refine ⟨?_, ?_, ?_, ?_, rfl⟩
  · intro c _
    exact dictGet_dictSet_self c "data_type" _
  · intro c _ v
    unfold assemble_column
    rw [dictGet_dictSet_ne c "data_type" "name" v (by decide)]
    rw [dictGet_dictSet_self, dictGet_dictSet_self]
  · intro s tv h
    show (lookupStr data_types s).getD "unknown" = tv
    rw [h]
    rfl
  · intro s h
    show (lookupStr data_types s).getD "unknown" = "unknown"
    rw [h]
    rfl

/-- C1 witness: the spec's round-trip example — TypeMap `{age: int}`, a
generation response claiming `data_type: "string"` for column `age`, and
the assembled profile reporting "int". -/
theorem C1_data_type_from_typemap_witness :
    dictGet
      (assemble_column [("age", "int")]
        [("name", J.str "age"), ("data_type", J.str "string")]) "data_type" =
      some (J.str "int") := by
  have h := (C1_data_type_from_typemap [("age", "int")]
      [[("name", J.str "age"), ("data_type", J.str "string")]]).1
      [("name", J.str "age"), ("data_type", J.str "string")] (List.mem_singleton.mpr rfl)
  exact h

/-- C6 counterexample: a column whose storage type falls outside the five
handled predicates is tagged with the dtype's own name via `str(dtype)`,
not with "str": a timedelta64[ns] column yields "timedelta64[ns]". -/
theorem C6_dataframe_types_counterexample :
    get_data_types_from_dataframe ⟨[("delta", PandasDtype.other "timedelta64[ns]")], []⟩ =
      [("delta", "timedelta64[ns]")] ∧ ("timedelta64[ns]" : String) ≠ "str" :=
  ⟨rfl, by decide⟩

/-- C6 amended: for tabular/spreadsheet files the TypeMap maps each
column's storage type through the if/elif chain — integer→"int",
floating→"float", boolean→"bool", temporal→"datetime", the generic
object dtype→"str", and any other storage type to that dtype's own name
(`str(dtype)`), not "str". -/
theorem C6_dataframe_types (df : DataFrame) :
    get_data_types_from_dataframe df = df.cols.map (fun p => (p.1, dtypeTag p.2)) ∧
    (∀ c d, (c, d) ∈ df.cols → (c, dtypeTag d) ∈ get_data_types_from_dataframe df) ∧
    dtypeTag PandasDtype.integer = "int" ∧
    dtypeTag PandasDtype.floating = "float" ∧
    dtypeTag PandasDtype.boolean = "bool" ∧
    dtypeTag PandasDtype.datetime64 = "datetime" ∧
    dtypeTag PandasDtype.object = "str" ∧
    (∀ s, dtypeTag (PandasDtype.other s) = s) := by
  refine ⟨rfl, ?_, rfl, rfl, rfl, rfl, rfl, fun s => rfl⟩
  intro c d h
  exact List.mem_map_of_mem _ h

/-- C6 witness: an all-floating column is tagged "float". -/
theorem C6_dataframe_types_witness :
    ("amount", "float") ∈
      get_data_types_from_dataframe ⟨[("amount", PandasDtype.floating)], []⟩ :=
  (C6_dataframe_types ⟨[("amount", PandasDtype.floating)], []⟩).2.1 "amount"
    PandasDtype.floating (List.mem_singleton.mpr rfl)

/-- C9: for plain-text files the prepared sample payload is the first 5
(stripped) lines joined by newlines, no TypeMap is derived, and the
profile `generate` returns for a `.txt`/`.text` file has no columns, so
no type enrichment appears anywhere in it. -/
theorem C9_txt_path (lines : List String) (filename file_path stem : String) :
    prepare_data_sample_txt lines =
      (String.intercalate "\n" ((lines.map pyStrip).take 5), []) ∧
    (TXTProcessor.get_top_n lines 5).length ≤ 5 ∧
    (generate_txt filename file_path stem).columns = [] := by
  refine ⟨rfl, ?_, rfl⟩
  show ((lines.map pyStrip).take 5).length ≤ 5
  simp [List.length_take]

/-- C9 witness. -/
theorem C9_txt_path_witness :
    (generate_txt "notes.txt" "/data/notes.txt" "notes").columns = [] :=
  (C9_txt_path [] "notes.txt" "/data/notes.txt" "notes").2.2

/-- C2: the retry wrapper makes at most 3 attempts; a non-retryable error
is re-raised immediately with no wait; a retryable error with attempts
remaining waits `2 * 2 ^ attempt` seconds unless the message carries a
`try again in Nms` hint, in which case the wait is `N / 1000` seconds
floored at 1 second; after the third failed attempt the last error is
re-raised. -/
theorem C2_retry_policy (e : Nat → Outcome) :
    (run_retry e).attempts ≤ 3 ∧
    (∀ r, e 0 = Outcome.ok r → run_retry e = ⟨.ok r, [], 1⟩) ∧
    (∀ m, e 0 = Outcome.err m → is_rate_limit m = false →
        run_retry e = ⟨.error m, [], 1⟩) ∧
    (∀ m r, e 0 = Outcome.err m → is_rate_limit m = true → e 1 = Outcome.ok r →
        run_retry e = ⟨.ok r, [compute_wait 0 m], 2⟩) ∧
    (∀ m0 m1, e 0 = Outcome.err m0 → is_rate_limit m0 = true →
        e 1 = Outcome.err m1 → is_rate_limit m1 = false →
        run_retry e = ⟨.error m1, [compute_wait 0 m0], 2⟩) ∧
    (∀ m0 m1 r, e 0 = Outcome.err m0 → is_rate_limit m0 = true →
        e 1 = Outcome.err m1 → is_rate_limit m1 = true → e 2 = Outcome.ok r →
        run_retry e = ⟨.ok r, [compute_wait 0 m0, compute_wait 1 m1], 3⟩) ∧
    (∀ m0 m1 m2, e 0 = Outcome.err m0 → is_rate_limit m0 = true →
        e 1 = Outcome.err m1 → is_rate_limit m1 = true → e 2 = Outcome.err m2 →
        run_retry e = ⟨.error m2, [compute_wait 0 m0, compute_wait 1 m1], 3⟩) ∧
    (∀ (a : Nat) (m : String) (ms : Nat), extract_wait_ms m = some ms →
        compute_wait a m = max ((ms : ℚ) / 1000) 1) ∧
    (∀ (a : Nat) (m : String), extract_wait_ms m = none →
        compute_wait a m = 2 * 2 ^ a) := by
  refine ⟨by simpa using retryGo_attempts_le e 3 0 [], ?_, ?_, ?_, ?_, ?_, ?_, ?_, ?_⟩
  · intro r h0
    simp [run_retry, retryGo, max_retries, h0]
  · intro m h0 hm
    simp [run_retry, retryGo, max_retries, h0, hm]
  · intro m r h0 hm h1
    simp [run_retry, retryGo, max_retries, h0, hm, h1]
  · intro m0 m1 h0 hm0 h1 hm1
    simp [run_retry, retryGo, max_retries, h0, hm0, h1, hm1]
  · intro m0 m1 r h0 hm0 h1 hm1 h2
    simp [run_retry, retryGo, max_retries, h0, hm0, h1, hm1, h2]
  · intro m0 m1 m2 h0 hm0 h1 hm1 h2
    simp [run_retry, retryGo, max_retries, h0, hm0, h1, hm1, h2]
  · intro a m ms h
    simp [compute_wait, h]
  · intro a m h
    simp [compute_wait, h, retry_delay]

/-- C2 witness: a first attempt failing with a rate-limit hint
`try again in 1500ms` waits exactly 1.5 seconds, and the second attempt
succeeds. -/
theorem C2_retry_policy_witness :
    run_retry (fun i => if i = 0 then Outcome.err "429 try again in 1500ms"
        else Outcome.ok "done") =
      ⟨.ok "done", [3 / 2], 2⟩ := by
  have h := (C2_retry_policy (fun i => if i = 0 then Outcome.err "429 try again in 1500ms"
      else Outcome.ok "done")).2.2.2.1 "429 try again in 1500ms" "done" rfl rfl rfl
  rw [h]
  have hx : extract_wait_ms "429 try again in 1500ms" = some 1500 := rfl
  have hw : compute_wait 0 "429 try again in 1500ms" = 3 / 2 := by
    simp only [compute_wait, hx]
    rw [max_eq_left (by norm_num)]
    norm_num
  rw [hw]

/-- C4 counterexample: three supported shapes break the claim.  A JSONL
file whose first physical line is blank makes `get_top_n(2)` return a
single record even though the dataset holds two (the loop breaks on the
line index, not the record count); a dict-shaped read (an XLSX workbook
read without a sheet selector, here one sheet of three rows) is returned
whole by the base reader's dict branch, all three rows despite `n = 2`;
and an XML root with three children is returned whole by the base
reader's final `else` branch despite `n = 2`. -/
theorem C4_get_top_n_counterexample :
    JSONLProcessor.get_top_n ["", "1", "2"] 2 = .ok [J.int 1] ∧
    JSONLProcessor.read ["", "1", "2"] = .ok [J.int 1, J.int 2] ∧
    ([J.int 1] : List J).length < 2 ∧ ¬ (([J.int 1, J.int 2] : List J).length < 2) ∧
    BaseProcessor.get_top_n
        (BaseProcessor.PyData.mapping
          [("Sheet1", ⟨[("id", PandasDtype.integer)],
            [[J.int 1], [J.int 2], [J.int 3]]⟩)]) 2 =
      BaseProcessor.PyData.mapping
        [("Sheet1", ⟨[("id", PandasDtype.integer)],
          [[J.int 1], [J.int 2], [J.int 3]]⟩)] ∧
    ((⟨[("id", PandasDtype.integer)],
        [[J.int 1], [J.int 2], [J.int 3]]⟩ : DataFrame).rows.length = 3 ∧ 2 < 3) ∧
    BaseProcessor.get_top_n
        (BaseProcessor.PyData.element (BaseProcessor.XmlElem.mk "root"
          [BaseProcessor.XmlElem.mk "row" [], BaseProcessor.XmlElem.mk "row" [],
           BaseProcessor.XmlElem.mk "row" []])) 2 =
      BaseProcessor.PyData.element (BaseProcessor.XmlElem.mk "root"
        [BaseProcessor.XmlElem.mk "row" [], BaseProcessor.XmlElem.mk "row" [],
         BaseProcessor.XmlElem.mk "row" []]) ∧
    ((BaseProcessor.XmlElem.mk "root"
        [BaseProcessor.XmlElem.mk "row" [], BaseProcessor.XmlElem.mk "row" [],
         BaseProcessor.XmlElem.mk "row" []]).childCount = 3 ∧ 2 < 3) :=
  ⟨rfl, rfl, by decide, by decide, rfl, ⟨rfl, by decide⟩, rfl, ⟨rfl, by decide⟩⟩

/-- C4 amended: `get_top_n(n)` returns at most `n` sample units for the
readers whose native shape is row/record/line-sequenced — list-shaped
data, DataFrame-backed tables, CSV, text lines, JSONL, and the JSON
reader's per-path sample lists.  The list-, DataFrame-, CSV- and
text-shaped readers return fewer than `n` only when the dataset itself
has fewer units; the JSONL reader examines only the first `n` physical
lines, so blank lines among them also reduce the count (when no line is
blank, fewer than `n` records again implies fewer than `n` lines).  The
generic base reader returns dict-shaped data (an XLSX all-sheets read)
and any other object (an XML document root) unchanged, so those two
shapes are not bounded by `n` at all. -/
theorem C4_get_top_n_bounds :
    (∀ (data : List J) (n : Nat), (BaseProcessor.get_top_n_list data n).length ≤ n ∧
        ((BaseProcessor.get_top_n_list data n).length < n → data.length < n)) ∧
    (∀ (df : DataFrame) (n : Nat), (BaseProcessor.head df n).rows.length ≤ n ∧
        ((BaseProcessor.head df n).rows.length < n → df.rows.length < n)) ∧
    (∀ (full : DataFrame) (n : Nat), (CSVProcessor.get_top_n full n).rows.length ≤ n ∧
        ((CSVProcessor.get_top_n full n).rows.length < n → full.rows.length < n)) ∧
    (∀ (lines : List String) (n : Nat), (TXTProcessor.get_top_n lines n).length ≤ n ∧
        ((TXTProcessor.get_top_n lines n).length < n → lines.length < n)) ∧
    (∀ (lines : List String) (n : Nat) (out : List J),
        JSONLProcessor.get_top_n lines n = .ok out →
        out.length ≤ n ∧
        out.length = (((lines.take n).map pyStrip).filter (· ≠ "")).length ∧
        ((∀ l ∈ lines, pyStrip l ≠ "") → out.length < n → lines.length < n)) ∧
    (∀ (sheets : List (String × DataFrame)) (n : Nat),
        BaseProcessor.get_top_n (BaseProcessor.PyData.mapping sheets) n =
          BaseProcessor.PyData.mapping sheets) ∧
    (∀ (root : BaseProcessor.XmlElem) (n : Nat),
        BaseProcessor.get_top_n (BaseProcessor.PyData.element root) n =
          BaseProcessor.PyData.element root) ∧
    (∀ (df : DataFrame) (n : Nat),
        BaseProcessor.get_top_n (BaseProcessor.PyData.frame df) n =
          BaseProcessor.PyData.frame (BaseProcessor.head df n)) ∧
    (∀ (xs : List J) (n : Nat),
        BaseProcessor.get_top_n (BaseProcessor.PyData.records xs) n =
          BaseProcessor.PyData.records (BaseProcessor.get_top_n_list xs n)) ∧
    (∀ (evs : List (String × IEvent)) (n : Nat) (p : String),
        ((JSONProcessor.samplesGet (JSONProcessor.get_top_n evs n) p).getD []).length ≤ n) := by
  refine ⟨?_, ?_, ?_, ?_, ?_, fun _ _ => rfl, fun _ _ => rfl, fun _ _ => rfl,
    fun _ _ => rfl, ?_⟩
  · intro data n
    unfold BaseProcessor.get_top_n_list
    split
    · constructor
      · simp [List.length_take]
      · intro h
        rw [List.length_take] at h
        omega
    · constructor
      · omega
      · intro h
        exact h
  · intro df n
    constructor
    · show (df.rows.take n).length ≤ n
      simp [List.length_take]
    · show (df.rows.take n).length < n → df.rows.length < n
      rw [List.length_take]
      omega
  · intro full n
    constructor
    · show (full.rows.take n).length ≤ n
      simp [List.length_take]
    · show (full.rows.take n).length < n → full.rows.length < n
      rw [List.length_take]
      omega
  · intro lines n
    constructor
    · show ((lines.map pyStrip).take n).length ≤ n
      simp [List.length_take]
    · show ((lines.map pyStrip).take n).length < n → lines.length < n
      rw [List.length_take, List.length_map]
      omega
  · intro lines n out h
    unfold JSONLProcessor.get_top_n at h
    have hlen := JSONLProcessor.loadsAll_ok_length _ out h
    refine ⟨?_, hlen, ?_⟩
    · rw [hlen]
      calc (((lines.take n).map pyStrip).filter (· ≠ "")).length
          ≤ ((lines.take n).map pyStrip).length := List.length_filter_le _ _
        _ ≤ n := by simp [List.length_take]
    · intro hnb hlt
      have hfe : ((lines.take n).map pyStrip).filter (· ≠ "") = (lines.take n).map pyStrip := by
        rw [List.filter_eq_self]
        intro a ha
        obtain ⟨l, hl, rfl⟩ := List.mem_map.mp ha
        have hmem : l ∈ lines := List.take_subset n lines hl
        simpa using hnb l hmem
      rw [hlen, hfe] at hlt
      rw [List.length_map, List.length_take] at hlt
      omega
  · intro evs n p
    rw [JSONProcessor.get_top_n_getD]
    simp [List.length_take]

/-- C4 witness: a one-line JSONL file yields one record from
`get_top_n(1)`, within the bound. -/
theorem C4_get_top_n_bounds_witness :
    JSONLProcessor.get_top_n ["1"] 1 = .ok [J.int 1] ∧ ([J.int 1] : List J).length ≤ 1 :=
  ⟨rfl, (C4_get_top_n_bounds.2.2.2.2.1 ["1"] 1 [J.int 1] rfl).1⟩

/-- C5 counterexample: with field `f` sampled as an int then a str (a
1–1 tie), the set enumeration ["str", "int"] is an admissible iteration
order of `set(types)` under which `max(set(types), key=types.count)`
returns "str", not the first-encountered type "int". -/
theorem C5_majority_counterexample :
    isSetOrder ["str", "int"]
      (nonNullTypes (field_sample_values [[("f", J.int 1)], [("f", J.str "x")]] "f")) ∧
    nonNullTypes (field_sample_values [[("f", J.int 1)], [("f", J.str "x")]] "f") =
      ["int", "str"] ∧
    (nonNullTypes (field_sample_values [[("f", J.int 1)], [("f", J.str "x")]] "f")).head? =
      some "int" ∧
    record_field_dtype [[("f", J.int 1)], [("f", J.str "x")]] "f" ["str", "int"] = "str" ∧
    ("str" : String) ≠ "int" := by
  refine ⟨⟨by decide, ?_⟩, rfl, rfl, rfl, by decide⟩
  intro t
  show t ∈ ["str", "int"] ↔ t ∈ ["int", "str"]
  constructor <;> intro h <;> simp only [List.mem_cons, List.not_mem_nil, or_false] at h ⊢ <;>
    tauto

/-- C5 amended: for any admissible iteration order of `set(types)`, the
inferred type of a field is one of the non-null types sampled from the
first 10 records and has maximal multiplicity among them; a unique strict
majority type is always selected, but a tie may be resolved to any tied
type, not necessarily the first encountered. -/
theorem C5_majority_vote (records : List PyDict) (field : String) (order : List String)
    (hord : isSetOrder order (nonNullTypes (field_sample_values records field)))
    (hne : nonNullTypes (field_sample_values records field) ≠ []) :
    record_field_dtype records field order ∈ nonNullTypes (field_sample_values records field) ∧
    (∀ t ∈ nonNullTypes (field_sample_values records field),
        (nonNullTypes (field_sample_values records field)).count t ≤
        (nonNullTypes (field_sample_values records field)).count
          (record_field_dtype records field order)) ∧
    (∀ m ∈ nonNullTypes (field_sample_values records field),
        (∀ t ∈ nonNullTypes (field_sample_values records field), t ≠ m →
            (nonNullTypes (field_sample_values records field)).count t <
            (nonNullTypes (field_sample_values records field)).count m) →
        record_field_dtype records field order = m) := by
  have horder_ne : order ≠ [] := by
    intro hnil
    obtain ⟨t0, ts, htt⟩ : ∃ a l, nonNullTypes (field_sample_values records field) = a :: l := by
      cases hc : nonNullTypes (field_sample_values records field) with
      | nil => exact absurd hc hne
      | cons a l => exact ⟨a, l, rfl⟩
    have : t0 ∈ order := (hord.2 t0).mpr (by rw [htt]; exact List.mem_cons_self _ _)
    rw [hnil] at this
    simp at this
  obtain ⟨m, hm_eq, hm_mem, hm_le⟩ :=
    maxByCount_spec (nonNullTypes (field_sample_values records field)) order horder_ne
  have hsne : field_sample_values records field ≠ [] := by
    intro h
    apply hne
    rw [show nonNullTypes (field_sample_values records field) = nonNullTypes [] by rw [h]]
    rfl
  have hrfd : record_field_dtype records field order = m := by
    unfold record_field_dtype
    cases hsc : field_sample_values records field with
    | nil => exact absurd hsc hsne
    | cons a l =>
      cases htc : nonNullTypes (a :: l) with
      | nil =>
        rw [hsc] at hne
        exact absurd htc hne
      | cons t ts =>
        rw [hsc, htc] at hm_eq
        show (match nonNullTypes (a :: l) with
              | [] => "null"
              | types => (maxByCount types order).getD "null") = m
        rw [htc]
        show (maxByCount (t :: ts) order).getD "null" = m
        rw [hm_eq]
        rfl
  have hmem_types : m ∈ nonNullTypes (field_sample_values records field) :=
    (hord.2 m).mp hm_mem
  refine ⟨hrfd ▸ hmem_types, ?_, ?_⟩
  · intro t ht
    rw [hrfd]
    exact hm_le t ((hord.2 t).mpr ht)
  · intro m' hm' hstrict
    rw [hrfd]
    by_contra hne2
    have h1 : (nonNullTypes (field_sample_values records field)).count m <
        (nonNullTypes (field_sample_values records field)).count m' :=
      hstrict m hmem_types hne2
    have h2 : (nonNullTypes (field_sample_values records field)).count m' ≤
        (nonNullTypes (field_sample_values records field)).count m :=
      hm_le m' ((hord.2 m').mpr hm')
    omega

/-- C5 witness: with a strict 2–1 majority of "int", any admissible set
order yields "int". -/
theorem C5_majority_vote_witness :
    record_field_dtype [[("f", J.int 1)], [("f", J.int 2)], [("f", J.str "x")]] "f"
      ["str", "int"] = "int" := by
  have hord : isSetOrder ["str", "int"]
      (nonNullTypes (field_sample_values
        [[("f", J.int 1)], [("f", J.int 2)], [("f", J.str "x")]] "f")) := by
    refine ⟨by decide, ?_⟩
    intro t
    show t ∈ ["str", "int"] ↔ t ∈ ["int", "int", "str"]
    constructor <;> intro h <;> simp only [List.mem_cons, List.not_mem_nil, or_false] at h ⊢ <;>
      tauto
  refine (C5_majority_vote _ "f" _ hord (by decide)).2.2 "int" (by decide) ?_
  intro t ht hne
  revert ht hne
  show t ∈ ["int", "int", "str"] → t ≠ "int" →
      (["int", "int", "str"] : List String).count t < (["int", "int", "str"] : List String).count "int"
  intro ht hne
  simp only [List.mem_cons, List.not_mem_nil, or_false] at ht
  rcases ht with rfl | rfl | rfl
  · exact absurd rfl hne
  · exact absurd rfl hne
  · decide

/-- C8 counterexample: duplicate scalar values at a path are all kept —
the per-path lists are not lists of *distinct* values. -/
theorem C8_path_sampling_counterexample :
    JSONProcessor.get_top_n (ijsonEvents (J.arr [J.int 1, J.int 1]) "") 5 =
      [("item", [J.int 1, J.int 1])] ∧
    ¬ ([J.int 1, J.int 1] : List J).Nodup := by
  refine ⟨rfl, ?_⟩
  intro h
  exact (List.nodup_cons.mp h).1 (List.mem_singleton.mpr rfl)

/-- C8 amended: for tree documents `get_top_n(n)` maps each field path to
the first `n` scalar values observed at that path in encounter order
(duplicates included); values beyond `n` per path are ignored, and
structural events contribute nothing to the stored lists — every stored
value comes from a string/number/boolean token at that very path. -/
theorem C8_path_sampling (evs : List (String × IEvent)) (n : Nat) (p : String) :
    (JSONProcessor.samplesGet (JSONProcessor.get_top_n evs n) p).getD [] =
      (scalarsAt p evs).take n ∧
    ((JSONProcessor.samplesGet (JSONProcessor.get_top_n evs n) p).getD []).length ≤ n ∧
    (∀ vs, JSONProcessor.samplesGet (JSONProcessor.get_top_n evs n) p = some vs →
        ∀ v ∈ vs, ∃ pe ∈ evs, pe.1 = p ∧ scalarOf pe.2 = some v) := by
  refine ⟨JSONProcessor.get_top_n_getD evs n p, ?_, ?_⟩
  · rw [JSONProcessor.get_top_n_getD]
    simp [List.length_take]
  · intro vs hvs v hv
    have hvs' := JSONProcessor.get_top_n_some evs n p vs hvs
    have hv' : v ∈ scalarsAt p evs := List.take_subset _ _ (hvs' ▸ hv)
    obtain ⟨pe, hpe, hsc⟩ := List.mem_filterMap.mp hv'
    by_cases hp : pe.1 = p
    · rw [if_pos hp] at hsc
      exact ⟨pe, hpe, hp, hsc⟩
    · rw [if_neg hp] at hsc
      cases hsc

/-- C8 witness. -/
theorem C8_path_sampling_witness :
    ((JSONProcessor.samplesGet
      (JSONProcessor.get_top_n (ijsonEvents (J.arr [J.int 1, J.int 1]) "") 1)
      "item").getD []).length ≤ 1 :=
  (C8_path_sampling (ijsonEvents (J.arr [J.int 1, J.int 1]) "") 1 "item").2.1

/-- C10: only string/number/boolean tokens are collected (never a null),
a path at which no such token occurs — in particular one whose values are
all JSON nulls — gets no sample entry, such a path is typed "unknown" by
the assembler, and no entry of the `.json`-branch TypeMap ever carries
the all-values-None fallback type "null". -/
theorem C10_null_paths (evs : List (String × IEvent)) (n : Nat) (p : String) :
    (∀ vs, JSONProcessor.samplesGet (JSONProcessor.get_top_n evs n) p = some vs →
        ∀ v ∈ vs, v ≠ J.null) ∧
    ((∀ pe ∈ evs, pe.1 = p → scalarOf pe.2 = none) →
        JSONProcessor.samplesGet (JSONProcessor.get_top_n evs n) p = none) ∧
    ((∀ pe ∈ evs, pe.1 = p → scalarOf pe.2 = none) →
        data_type_for (json_data_types (JSONProcessor.get_top_n evs n)) (J.str p) =
          "unknown") ∧
    (∀ t, lookupStr (json_data_types (JSONProcessor.get_top_n evs n)) p = some t →
        t ≠ "null") := by
  have hnd := JSONProcessor.get_top_n_keys_nodup evs n
  have hA : ∀ vs, JSONProcessor.samplesGet (JSONProcessor.get_top_n evs n) p = some vs →
      ∀ v ∈ vs, v ≠ J.null := by
    intro vs hvs v hv
    have hvs' := JSONProcessor.get_top_n_some evs n p vs hvs
    have hv' : v ∈ scalarsAt p evs := List.take_subset _ _ (hvs' ▸ hv)
    obtain ⟨pe, _, hsc⟩ := List.mem_filterMap.mp hv'
    by_cases hp : pe.1 = p
    · rw [if_pos hp] at hsc
      exact scalarOf_ne_null pe.2 v hsc
    · rw [if_neg hp] at hsc
      cases hsc
  have hB : (∀ pe ∈ evs, pe.1 = p → scalarOf pe.2 = none) →
      JSONProcessor.samplesGet (JSONProcessor.get_top_n evs n) p = none := by
    intro h
    apply (JSONProcessor.get_top_n_none_iff evs n p).mpr
    apply List.filterMap_eq_nil_iff.mpr
    intro pe hpe
    by_cases hp : pe.1 = p
    · rw [if_pos hp]
      exact h pe hpe hp
    · rw [if_neg hp]
  refine ⟨hA, hB, ?_, ?_⟩
  · intro h
    have hl := lookup_json_data_types (JSONProcessor.get_top_n evs n) p hnd
    rw [hB h] at hl
    have hl' : lookupStr (json_data_types (JSONProcessor.get_top_n evs n)) p = none := hl
    show (lookupStr (json_data_types (JSONProcessor.get_top_n evs n)) p).getD "unknown" =
      "unknown"
    rw [hl']
    rfl
  · intro t ht
    have hl := lookup_json_data_types (JSONProcessor.get_top_n evs n) p hnd
    rw [ht] at hl
    cases hsg : JSONProcessor.samplesGet (JSONProcessor.get_top_n evs n) p with
    | none =>
      rw [hsg] at hl
      cases hl
    | some vs =>
      rw [hsg] at hl
      cases vs with
      | nil => cases hl
      | cons a as =>
        have ht2 : t = sample_type (a :: as) := Option.some.inj hl
        rw [ht2]
        exact sample_type_ne_null (a :: as) (by simp) (hA (a :: as) hsg)

/-- C10 witness: a path observed only as JSON nulls is absent from the
sample and typed "unknown" by the assembler's lookup. -/
theorem C10_null_paths_witness :
    data_type_for
      (json_data_types (JSONProcessor.get_top_n
        [("a.item", IEvent.null), ("a.item", IEvent.null), ("b", IEvent.string "x")] 5))
      (J.str "a.item") = "unknown" := by
  refine (C10_null_paths
      [("a.item", IEvent.null), ("a.item", IEvent.null), ("b", IEvent.string "x")]
      5 "a.item").2.2.1 ?_
  intro pe hpe hp
  fin_cases hpe
  · rfl
  · rfl
  · exact absurd hp (by decide)

/-- C7 counterexample: for a six-element root list of records, the
`.json` branch types the stream path "item.a" from the streaming sample
rather than typing field "a" from the full list as records, so the claim's
described TypeMap differs from the code's. -/
theorem C7_json_prepare_counterexample :
    json_data_types (JSONProcessor.get_top_n (ijsonEvents (J.arr
      [J.obj [("a", J.int 1)], J.obj [("a", J.int 2)], J.obj [("a", J.int 3)],
       J.obj [("a", J.int 4)], J.obj [("a", J.int 5)], J.obj [("a", J.int 6)]]) "") 5) =
      [("item.a", "int")] ∧
    claimed_json_typing (J.arr
      [J.obj [("a", J.int 1)], J.obj [("a", J.int 2)], J.obj [("a", J.int 3)],
       J.obj [("a", J.int 4)], J.obj [("a", J.int 5)], J.obj [("a", J.int 6)]]) =
      [("a", "int")] ∧
    ([("item.a", "int")] : List (String × String)) ≠ [("a", "int")] ∧
    JSONProcessor.get_top_n (ijsonEvents (J.arr
      [J.obj [("a", J.int 1)], J.obj [("a", J.int 2)], J.obj [("a", J.int 3)],
       J.obj [("a", J.int 4)], J.obj [("a", J.int 5)], J.obj [("a", J.int 6)]]) "") 5 =
      [("item.a", [J.int 1, J.int 2, J.int 3, J.int 4, J.int 5])] :=
  ⟨rfl, rfl, by decide, rfl⟩

/-- C7 amended: for whole-document JSON files, regardless of the root's
shape, the payload is the streaming per-field-path sample and the TypeMap
assigns to each path with at least one sampled scalar the type of the
first non-None sampled value there ("null" would require an all-None
sample, which the stream never produces). -/
theorem C7_json_prepare (evs : List (String × IEvent)) (n : Nat) (p : String) :
    lookupStr (json_data_types (JSONProcessor.get_top_n evs n)) p =
      match (scalarsAt p evs).take n with
      | [] => none
      | v :: vs => some (sample_type (v :: vs)) := by
  have hnd := JSONProcessor.get_top_n_keys_nodup evs n
  have hl := lookup_json_data_types (JSONProcessor.get_top_n evs n) p hnd
  rw [hl]
  cases hsg : JSONProcessor.samplesGet (JSONProcessor.get_top_n evs n) p with
  | none =>
    have hsc : scalarsAt p evs = [] := (JSONProcessor.get_top_n_none_iff evs n p).mp hsg
    rw [hsc]
    simp
  | some vs =>
    have hvs := JSONProcessor.get_top_n_some evs n p vs hsg
    rw [← hvs]
    cases vs with
    | nil => rfl
    | cons a as => rfl

/-- C7 witness: the six-record list document yields `item.a ↦ int`. -/
theorem C7_json_prepare_witness :
    lookupStr (json_data_types (JSONProcessor.get_top_n (ijsonEvents (J.arr
      [J.obj [("a", J.int 1)], J.obj [("a", J.int 2)], J.obj [("a", J.int 3)],
       J.obj [("a", J.int 4)], J.obj [("a", J.int 5)], J.obj [("a", J.int 6)]]) "") 5))
      "item.a" = some "int" := by
  rw [C7_json_prepare (ijsonEvents (J.arr
      [J.obj [("a", J.int 1)], J.obj [("a", J.int 2)], J.obj [("a", J.int 3)],
       J.obj [("a", J.int 4)], J.obj [("a", J.int 5)], J.obj [("a", J.int 6)]]) "") 5
      "item.a"]
  rfl

/-- C3 counterexample: when a fenced code block is found whose content
fails to parse, the raised error carries the block's inner text, which is
not a prefix of the raw response. -/
theorem C3_extraction_counterexample :
    extract_json_from_response "see ``` nope ``` end" =
      .error "Could not extract valid JSON from LLM response: nope" ∧
    ("nope".toList.isPrefixOf "see ``` nope ``` end".toList) = false :=
  ⟨rfl, by decide⟩

/-- C3 amended: if none of the four recovery strategies yields a valid
structure, extraction fails with an error embedding the response text in
force at that point (the raw response, or the fenced block's inner text
when a block was found whose content failed to parse), and it never
returns anything but a structure one of the four strategies validated. -/
theorem C3_extraction_failure (s : String) :
    (∀ v, extract_json_from_response s = .ok v →
        validStructure v = true ∧
        (strat1 s = some v ∨ strat2 s = some v ∨
          strat3 (final_response s) = some v ∨ strat4 (final_response s) = some v)) ∧
    (∀ m, extract_json_from_response s = .error m →
        m = "Could not extract valid JSON from LLM response: " ++ final_response s ∧
        strat1 s = none ∧ strat2 s = none ∧
        strat3 (final_response s) = none ∧ strat4 (final_response s) = none) := by
  cases h1 : (json_loads s).bind accept_parsed with
  | some v0 =>
    have hx : extract_json_from_response s = .ok v0 := by
      unfold extract_json_from_response
      rw [h1]
    obtain ⟨u, _, hau⟩ := Option.bind_eq_some.mp h1
    constructor
    · intro v hv
      rw [hx] at hv
      injection hv with hv'
      subst hv'
      exact ⟨accept_parsed_valid u v0 hau, Or.inl h1⟩
    · intro m hm
      rw [hx] at hm
      exact Except.noConfusion hm
  | none =>
    cases hcb : find_code_block s with
    | none =>
      have hx : extract_json_from_response s = extract_fallback s := by
        unfold extract_json_from_response
        rw [h1, hcb]
      have hfin : final_response s = s := by
        unfold final_response
        rw [hcb]
      have hs2 : strat2 s = none := by
        unfold strat2
        rw [hcb]
        rfl
      constructor
      · intro v hv
        rw [hx] at hv
        obtain ⟨hvalid, hor⟩ := extract_fallback_ok s v hv
        rw [hfin]
        rcases hor with h | h
        · exact ⟨hvalid, Or.inr (Or.inr (Or.inl h))⟩
        · exact ⟨hvalid, Or.inr (Or.inr (Or.inr h))⟩
      · intro m hm
        rw [hx] at hm
        obtain ⟨h3, h4, hmsg⟩ := extract_fallback_error s m hm
        rw [hfin]
        exact ⟨hmsg, h1, hs2, h3, h4⟩
    | some c =>
      cases hjc : json_loads c with
      | none =>
        have hx : extract_json_from_response s = extract_fallback c := by
          unfold extract_json_from_response
          simp only [h1, hcb, hjc]
        have hfin : final_response s = c := by
          unfold final_response
          simp only [hcb, hjc]
        have hs2 : strat2 s = none := by
          unfold strat2
          rw [hcb]
          show (json_loads c).bind accept_parsed = none
          rw [hjc]
          rfl
        constructor
        · intro v hv
          rw [hx] at hv
          obtain ⟨hvalid, hor⟩ := extract_fallback_ok c v hv
          rw [hfin]
          rcases hor with h | h
          · exact ⟨hvalid, Or.inr (Or.inr (Or.inl h))⟩
          · exact ⟨hvalid, Or.inr (Or.inr (Or.inr h))⟩
        · intro m hm
          rw [hx] at hm
          obtain ⟨h3, h4, hmsg⟩ := extract_fallback_error c m hm
          rw [hfin]
          exact ⟨hmsg, h1, hs2, h3, h4⟩
      | some parsed =>
        cases hap : accept_parsed parsed with
        | some v0 =>
          have hx : extract_json_from_response s = .ok v0 := by
            unfold extract_json_from_response
            simp only [h1, hcb, hjc, hap]
          have hs2 : strat2 s = some v0 := by
            unfold strat2
            rw [hcb]
            show (json_loads c).bind accept_parsed = some v0
            rw [hjc]
            exact hap
          constructor
          · intro v hv
            rw [hx] at hv
            injection hv with hv'
            subst hv'
            exact ⟨accept_parsed_valid parsed v0 hap, Or.inr (Or.inl hs2)⟩
          · intro m hm
            rw [hx] at hm
            exact Except.noConfusion hm
        | none =>
          have hx : extract_json_from_response s = extract_fallback s := by
            unfold extract_json_from_response
            simp only [h1, hcb, hjc, hap]
          have hfin : final_response s = s := by
            unfold final_response
            simp only [hcb, hjc]
          have hs2 : strat2 s = none := by
            unfold strat2
            rw [hcb]
            show (json_loads c).bind accept_parsed = none
            rw [hjc]
            exact hap
          constructor
          · intro v hv
            rw [hx] at hv
            obtain ⟨hvalid, hor⟩ := extract_fallback_ok s v hv
            rw [hfin]
            rcases hor with h | h
            · exact ⟨hvalid, Or.inr (Or.inr (Or.inl h))⟩
            · exact ⟨hvalid, Or.inr (Or.inr (Or.inr h))⟩
          · intro m hm
            rw [hx] at hm
            obtain ⟨h3, h4, hmsg⟩ := extract_fallback_error s m hm
            rw [hfin]
            exact ⟨hmsg, h1, hs2, h3, h4⟩

/-- C3 witness: unresolvable plain prose fails every strategy. -/
theorem C3_extraction_failure_witness :
    strat1 "plain prose without structure" = none ∧
    strat2 "plain prose without structure" = none := by
  have h := (C3_extraction_failure "plain prose without structure").2
    "Could not extract valid JSON from LLM response: plain prose without structure" rfl
  exact ⟨h.2.1, h.2.2.1⟩

end Claims

end DataFusion
